import Mathlib

/-!
Verification of the Custom-Chatbot-Builder repository.

The Python sources are embedded shallowly: strings become `List Char`,
Python's `str.split`, `str.replace`, `str.strip` and the `in` operator are
modelled by structurally recursive (hence kernel-evaluable) functions, the
Gradio interface state becomes an explicit record, and the completion-model
delegate (tokenizer / causal LM) becomes an `Except`-valued function
parameter, since any of its operations may raise.
-/

namespace CB

/-- Membership test of Python ASCII whitespace, as used by `str.strip()`. -/
def isPySpace (c : Char) : Bool :=
  c = ' ' || c = '\t' || c = '\n' || c = '\r' || c = '\x0b' || c = '\x0c'

/-- Python `str.lstrip()`: drop leading whitespace. -/
def lstrip (s : List Char) : List Char := s.dropWhile isPySpace

/-- Python `str.rstrip()`: drop trailing whitespace. -/
def rstrip (s : List Char) : List Char := (s.reverse.dropWhile isPySpace).reverse

/-- Python `str.strip()`: drop leading and trailing whitespace. -/
def pystrip (s : List Char) : List Char := rstrip (lstrip s)

/-- Boolean test that `p` is an initial segment of `s`. -/
def isPre : List Char → List Char → Bool
  | [], _ => true
  | _ :: _, [] => false
  | a :: p, b :: s => a = b && isPre p s

/-- Index of the first occurrence of `pat` as a contiguous substring of `s`
(Python `str.find`, `none` instead of `-1`). -/
def findSub (pat : List Char) : List Char → Option Nat
  | [] => if isPre pat [] then some 0 else none
  | c :: t => if isPre pat (c :: t) then some 0 else (findSub pat t).map (· + 1)

/-- Python's substring containment operator `pat in s`. -/
def hasSub (pat s : List Char) : Bool := (findSub pat s).isSome

/-- `pat` occurs in `s` starting at index `i`. -/
def occursAtB (pat s : List Char) (i : Nat) : Bool := isPre pat (s.drop i)

/-- Number of indices at which `pat` occurs in `s` (occurrences may overlap). -/
def countOcc (pat : List Char) : List Char → Nat
  | [] => 0
  | c :: t => (if isPre pat (c :: t) then 1 else 0) + countOcc pat t

/-- Fuel-indexed left-to-right scan of Python `str.split(sep)`; any
`fuel ≥ s.length` computes the real value. -/
def pysplitF (pat : List Char) : Nat → List Char → List (List Char)
  | 0, s => [s]
  | fuel + 1, s =>
    match findSub pat s with
    | none => [s]
    | some i => s.take i :: pysplitF pat fuel (s.drop (i + pat.length))

/-- Python `s.split(pat)` for a non-empty separator `pat`. -/
def pysplit (pat s : List Char) : List (List Char) := pysplitF pat s.length s

/-- Fuel-indexed scan of Python `s.replace(pat, "")`. -/
def removeSubF (pat : List Char) : Nat → List Char → List Char
  | 0, s => s
  | fuel + 1, s =>
    match findSub pat s with
    | none => s
    | some i => s.take i ++ removeSubF pat fuel (s.drop (i + pat.length))

/-- Python `s.replace(pat, "")` for a non-empty `pat`: delete the
occurrences of `pat` found by a left-to-right non-overlapping scan. -/
def removeSub (pat s : List Char) : List Char := removeSubF pat s.length s

/-- Start indices of the occurrences of `pat` consumed by the scan that
Python `str.split` performs (non-overlapping, left to right), fuel-indexed. -/
def scanOccsF (pat : List Char) : Nat → List Char → List Nat
  | 0, _ => []
  | fuel + 1, s =>
    match findSub pat s with
    | none => []
    | some i => i :: (scanOccsF pat fuel (s.drop (i + pat.length))).map (· + (i + pat.length))

/-- Start indices of the non-overlapping scan occurrences of `pat` in `s`. -/
def scanOccs (pat s : List Char) : List Nat := scanOccsF pat s.length s

/-! ## The embedded program: `src/chatbot/data/processor.py` -/

/-- The literal question marker of `DataProcessor.parse_faq_input`. -/
def qTok : List Char := "Q:".data

/-- The literal answer marker of `DataProcessor.parse_faq_input`. -/
def aTok : List Char := "A:".data

/-- The line separator of `DataProcessor.parse_faq_input`. -/
def nlTok : List Char := "\n".data

/-- `DataProcessor.sep_token`, the training-example separator. -/
def sep_token : List Char := "###".data

/-- The loop body of `DataProcessor.parse_faq_input`: keep every line that
contains both markers, split it on `"A:"`, strip `"Q:"` from segment 0 and
trim both sides. -/
def parseLines : List (List Char) → List (List Char × List Char)
  | [] => []
  | line :: rest =>
    if hasSub qTok line && hasSub aTok line then
      (pystrip (removeSub qTok ((pysplit aTok line).headD [])),
       pystrip ((pysplit aTok line).getD 1 [])) :: parseLines rest
    else parseLines rest

/-- `DataProcessor.parse_faq_input` (processor.py lines 41-52). -/
def parse_faq_input (raw_text : List Char) : List (List Char × List Char) :=
  parseLines (pysplit nlTok (pystrip raw_text))

/-- `SAMPLE_INDUSTRIES` from `config/config.py`, as an association list in
the dict's insertion order. -/
def SAMPLE_INDUSTRIES : List (List Char × List (List Char × List Char)) :=
  [("retail".data,
    [("What are your store hours?".data,
      "Our store is open Monday through Saturday from 9 AM to 6 PM.".data),
     ("Do you offer returns?".data,
      "Yes, we offer returns within 30 days of purchase with original receipt.".data)]),
   ("restaurant".data,
    [("Do you take reservations?".data,
      "Yes, we accept reservations through our website or by phone.".data),
     ("Are you open for lunch?".data,
      "Yes, we serve lunch from 11 AM to 3 PM daily.".data)]),
   ("fitness".data,
    [("What are your membership options?".data,
      "We offer monthly and annual memberships with various packages.".data),
     ("Do you offer personal training?".data,
      "Yes, we have certified personal trainers available for one-on-one sessions.".data)])]

/-- Python dict lookup on an association list (`industry in SAMPLE_INDUSTRIES`
/ `SAMPLE_INDUSTRIES[industry]`). -/
def dictLookup {α : Type} (k : List Char) : List (List Char × α) → Option α
  | [] => none
  | (k2, v) :: t => if k = k2 then some v else dictLookup k t

/-- `DataProcessor.prepare_training_data` (processor.py lines 57-92); a
dataset row is represented by its single `"text"` field. `business_data` is
a parameter of the source method and is never read by it. -/
def prepare_training_data (business_data : List (List Char × List Char))
    (custom_faqs : List (List Char × List Char)) (industry : List Char) :
    List (List Char) :=
  let all_qa_pairs :=
    custom_faqs ++
      (match dictLookup industry SAMPLE_INDUSTRIES with
       | none => []
       | some samples => samples)
  all_qa_pairs.map (fun qa => qa.1 ++ (" ".data ++ sep_token ++ " ".data) ++ qa.2)

/-! ## The embedded program: `src/chatbot/models/trainer.py` -/

/-- The response clean-up of `ChatbotTrainer.generate_response`
(trainer.py lines 147-148): `response.split("###")[-1].strip()`. -/
def clean_response (response : List Char) : List Char :=
  pystrip ((pysplit sep_token response).getLastD [])

/-- `ChatbotTrainer.generate_response` (trainer.py lines 121-151): builds the
prompt `f"{question} ###"`, hands it to the completion model — abstracted as
the pure delegate `gen` mapping the prompt to the decoded output — and
cleans the decoded output. -/
def generate_response (gen : List Char → List Char) (question : List Char) : List Char :=
  clean_response (gen (question ++ (" ###".data)))

/-! ## The embedded program: `src/chatbot/api/app.py` -/

/-- The mutable state of `ChatbotInterface` relevant to `chat`: the
`loaded_model_path` attribute (`none` before the first load, mirroring the
`hasattr` check) plus a log of the arguments of every `trainer.load_model`
call, making the load operations observable. -/
structure InterfaceState where
  loaded_model_path : Option (List Char)
  loadLog : List (List Char)
deriving DecidableEq, Repr

/-- The body of `ChatbotInterface.chat` after a successful load decision:
call the completion model on the prompt and clean the output (delegate may
raise, modelled by `Except`), append the turn to the history on success. -/
def chatAfterLoad (gen : List Char → Except (List Char) (List Char))
    (st : InterfaceState) (question : List Char)
    (history : List (List Char × List Char)) :
    (List Char × List (List Char × List Char)) × InterfaceState :=
  match gen (question ++ (" ###".data)) with
  | Except.error e => (("Error: ".data ++ e, history), st)
  | Except.ok decoded =>
    let response := clean_response decoded
    ((response, history ++ [(question, response)]), st)

/-- `ChatbotInterface.chat` (app.py lines 92-128). `load` and `gen` are the
completion-model delegates (`trainer.load_model` and the decode step of
`trainer.generate_response`); either may raise, surfaced as
`Except.error` with the exception message. -/
def chat (load : List Char → Except (List Char) Unit)
    (gen : List Char → Except (List Char) (List Char))
    (st : InterfaceState) (question model_path : List Char)
    (history : List (List Char × List Char)) :
    (List Char × List (List Char × List Char)) × InterfaceState :=
  if model_path = [] then (("Please train the chatbot first!".data, history), st)
  else if question = [] then (("Please ask a question!".data, history), st)
  else if st.loaded_model_path = some model_path then
    chatAfterLoad gen st question history
  else
    match load model_path with
    | Except.error e => (("Error: ".data ++ e, history), st)
    | Except.ok _ =>
      chatAfterLoad gen
        { loaded_model_path := some model_path,
          loadLog := st.loadLog ++ [model_path] }
        question history

/-! ## The embedded program: `export_chatbot_data` and `config.py` paths -/

/-- A JSON value as produced by `json.dump` for this program's data. -/
inductive PyJson where
  | str : List Char → PyJson
  | arr : List PyJson → PyJson
  | obj : List (List Char × PyJson) → PyJson

/-- The install-dependent root of `config.py`
(`ROOT_DIR = Path(__file__).parent.parent.parent.parent`). -/
structure Config where
  root_dir : List Char

/-- `DATA_DIR = ROOT_DIR / "data"` from `config.py`. -/
def DATA_DIR (c : Config) : List Char := c.root_dir ++ ("/data".data)

/-- The `export_data` document built by `DataProcessor.export_chatbot_data`
(processor.py lines 154-159). -/
def export_payload (business_data qa_pairs : List (List Char × List Char)) : PyJson :=
  PyJson.obj
    [("business_info".data, PyJson.obj (business_data.map (fun kv => (kv.1, PyJson.str kv.2)))),
     ("qa_pairs".data, PyJson.arr (qa_pairs.map (fun qa =>
       PyJson.obj [("question".data, PyJson.str qa.1), ("answer".data, PyJson.str qa.2)])))]

/-- `DataProcessor.export_chatbot_data` (processor.py lines 136-168). The
file system is a map from paths to the JSON document stored there; writing
replaces whatever the destination held. Returns the destination path and
the updated file system. -/
def export_chatbot_data (c : Config) (fs : List Char → Option PyJson)
    (business_data qa_pairs : List (List Char × List Char))
    (output_file : Option (List Char)) :
    List Char × (List Char → Option PyJson) :=
  let export_data := export_payload business_data qa_pairs
  let out :=
    match output_file with
    | none => DATA_DIR c ++ ("/chatbot_export.json".data)
    | some p => p
  (out, fun p => if p = out then some export_data else fs p)

/-- Reading a JSON string back. -/
def decodeStr : PyJson → Option (List Char)
  | PyJson.str s => some s
  | _ => none

/-- Decoding one `{"question": ..., "answer": ...}` object. -/
def decodeQaPair : PyJson → Option (List Char × List Char)
  | PyJson.obj [(k1, PyJson.str q), (k2, PyJson.str a)] =>
    if k1 = "question".data ∧ k2 = "answer".data then some (q, a) else none
  | _ => none

/-- All-or-nothing decoding of a list, as `json.load` reads an array. -/
def mapMOpt {α β : Type} (f : α → Option β) : List α → Option (List β)
  | [] => some []
  | a :: t =>
    match f a, mapMOpt f t with
    | some b, some bs => some (b :: bs)
    | _, _ => none

/-- Decoding the `qa_pairs` array. -/
def decodeQaPairs : PyJson → Option (List (List Char × List Char))
  | PyJson.arr items => mapMOpt decodeQaPair items
  | _ => none

/-- Decoding the `business_info` object back to a string-to-string map. -/
def decodeBusinessInfo : PyJson → Option (List (List Char × List Char))
  | PyJson.obj kvs => mapMOpt (fun kv => (decodeStr kv.2).map (fun v => (kv.1, v))) kvs
  | _ => none

/-- Field access on a decoded JSON object. -/
def getField (key : List Char) : PyJson → Option PyJson
  | PyJson.obj kvs => dictLookup key kvs
  | _ => none

/-- `ChatbotInterface.train_chatbot` (app.py lines 33-90). The
completion-model delegates are `tokenize` (`DataProcessor.tokenize_data`,
whose outcome is a tokenized dataset of token-id rows) and `train`
(`ChatbotTrainer.train`, whose outcome is the rendered training loss and
the model path); either may raise. The rendering of the float loss into
the status string is abstracted into the delegate outcome. -/
def train_chatbot (c : Config) (fs : List Char → Option PyJson)
    (tokenize : List (List Char) → Except (List Char) (List (List Nat)))
    (train : List (List Nat) → Except (List Char) (List Char × List Char))
    (business_name industry faq_text : List Char) :
    (List Char × List Char) × (List Char → Option PyJson) :=
  let qa_pairs := parse_faq_input faq_text
  let business_data := [("name".data, business_name), ("industry".data, industry)]
  let dataset := prepare_training_data business_data qa_pairs industry
  match tokenize dataset with
  | Except.error e => (("Error: ".data ++ e, []), fs)
  | Except.ok tokenized =>
    match train tokenized with
    | Except.error e => (("Error: ".data ++ e, []), fs)
    | Except.ok (lossStr, model_path) =>
      let ex := export_chatbot_data c fs business_data qa_pairs none
      ((("Training completed! Loss: ".data ++ lossStr
          ++ ("\nModel saved to: ".data) ++ model_path
          ++ ("\nData exported to: ".data) ++ ex.1),
        model_path), ex.2)

/-! ## Specification-side definitions used to state the claims -/

/-- The line list that `parse_faq_input` iterates over:
`raw_text.strip().split("\n")`. -/
def linesOf (raw : List Char) : List (List Char) := pysplit nlTok (pystrip raw)

/-- Index of the first `"A:"` in a line (0 when absent). -/
def aIdx (l : List Char) : Nat := (findSub aTok l).getD 0

/-- Index of the first `"Q:"` in a line (0 when absent). -/
def qIdx (l : List Char) : Nat := (findSub qTok l).getD 0

/-- A line kept by `parse_faq_input`: it contains both markers. -/
def lineKeptB (l : List Char) : Bool := hasSub qTok l && hasSub aTok l

/-- A well-formed line in the sense of the claim on `parse_faq_input`:
exactly one occurrence of `"Q:"`, exactly one occurrence of `"A:"`, the
former before the latter. -/
def wfLine (l : List Char) : Prop :=
  countOcc qTok l = 1 ∧ countOcc aTok l = 1 ∧ qIdx l < aIdx l

instance (l : List Char) : Decidable (wfLine l) := by
  unfold wfLine; exact inferInstance

/-- What `parse_faq_input` extracts from a well-formed line, stated by
position: question from the text before the unique `"A:"` with the `"Q:"`
occurrences deleted, answer from the text after it, both trimmed. -/
def wfExtract (l : List Char) : List Char × List Char :=
  (pystrip (removeSub qTok (l.take (aIdx l))), pystrip (l.drop (aIdx l + 2)))

/-- What `parse_faq_input` extracts from any kept line, stated by position:
the answer is the text strictly between the first `"A:"` and the following
`"A:"` occurrence when one exists, otherwise all the text after the first
`"A:"`; question and answer are trimmed. -/
def extract2 (l : List Char) : List Char × List Char :=
  let r := l.drop (aIdx l + 2)
  (pystrip (removeSub qTok (l.take (aIdx l))),
   pystrip (match findSub aTok r with | none => r | some j => r.take j))

/-! ## Lemmas: substring search -/

theorem isPre_iff (p : List Char) : ∀ s, isPre p s = true ↔ ∃ t, s = p ++ t := by
  induction p with
  | nil => intro s; simp [isPre]
  | cons a p ih =>
    intro s
    cases s with
    | nil =>
      simp only [isPre, List.cons_append]
      constructor
      · intro h; cases h
      · rintro ⟨u, h⟩; cases h
    | cons b t =>
      simp only [isPre, Bool.and_eq_true, decide_eq_true_eq, ih, List.cons_append]
      constructor
      · rintro ⟨rfl, u, rfl⟩; exact ⟨u, rfl⟩
      · rintro ⟨u, h⟩
        injection h with h1 h2
        exact ⟨h1.symm, u, h2⟩

theorem isPre_nil_of_ne (p : List Char) (hp : p ≠ []) : isPre p [] = false := by
  cases p with
  | nil => exact absurd rfl hp
  | cons a q => rfl

theorem isPre_length_le {p s : List Char} (h : isPre p s = true) : p.length ≤ s.length := by
  obtain ⟨t, rfl⟩ := (isPre_iff p s).1 h
  simp

theorem isPre_append_right {p u : List Char} (y : List Char) (h : isPre p u = true) :
    isPre p (u ++ y) = true := by
  obtain ⟨t, rfl⟩ := (isPre_iff p u).1 h
  exact (isPre_iff p _).2 ⟨t ++ y, by simp⟩

theorem findSub_nil {p : List Char} (hp : p ≠ []) : findSub p [] = none := by
  simp [findSub, isPre_nil_of_ne p hp]

theorem occursAtB_zero (p s : List Char) : occursAtB p s 0 = isPre p s := rfl

theorem occursAtB_cons_succ (p : List Char) (c : Char) (t : List Char) (i : Nat) :
    occursAtB p (c :: t) (i + 1) = occursAtB p t i := rfl

theorem occursAtB_nil {p : List Char} (hp : p ≠ []) (i : Nat) :
    occursAtB p [] i = false := by
  unfold occursAtB
  rw [List.drop_nil]
  exact isPre_nil_of_ne p hp

theorem findSub_some_occurs {p : List Char} :
    ∀ {s : List Char} {i : Nat}, findSub p s = some i → occursAtB p s i = true := by
  intro s
  induction s with
  | nil =>
    intro i h
    unfold findSub at h
    split at h
    · cases h; assumption
    · cases h
  | cons c t ih =>
    intro i h
    unfold findSub at h
    split at h
    · cases h; assumption
    · cases hft : findSub p t with
      | none => rw [hft] at h; cases h
      | some j =>
        rw [hft] at h
        simp only [Option.map_some'] at h
        cases h
        exact ih hft

theorem findSub_some_min {p : List Char} :
    ∀ {s : List Char} {i : Nat}, findSub p s = some i →
      ∀ j, j < i → occursAtB p s j = false := by
  intro s
  induction s with
  | nil =>
    intro i h j hj
    unfold findSub at h
    split at h
    · cases h; omega
    · cases h
  | cons c t ih =>
    intro i h j hj
    unfold findSub at h
    split at h
    · cases h; omega
    · cases hft : findSub p t with
      | none => rw [hft] at h; cases h
      | some k =>
        rw [hft] at h
        simp only [Option.map_some'] at h
        cases h
        cases j with
        | zero =>
          rw [occursAtB_zero]
          simpa using Bool.of_not_eq_true (by assumption)
        | succ j' =>
          rw [occursAtB_cons_succ]
          exact ih hft j' (by omega)

theorem findSub_none_occurs {p : List Char} (hp : p ≠ []) :
    ∀ {s : List Char}, findSub p s = none → ∀ j, occursAtB p s j = false := by
  intro s
  induction s with
  | nil => intro _ j; exact occursAtB_nil hp j
  | cons c t ih =>
    intro h j
    unfold findSub at h
    split at h
    · cases h
    · cases hft : findSub p t with
      | none =>
        cases j with
        | zero =>
          rw [occursAtB_zero]
          simpa using Bool.of_not_eq_true (by assumption)
        | succ j' =>
          rw [occursAtB_cons_succ]
          exact ih hft j'
      | some k => rw [hft] at h; simp at h

theorem occurs_hasSub {p : List Char} (hp : p ≠ []) {s : List Char} {j : Nat}
    (h : occursAtB p s j = true) : hasSub p s = true := by
  unfold hasSub
  cases hf : findSub p s with
  | none => rw [findSub_none_occurs hp hf j] at h; cases h
  | some i => rfl

theorem occursAtB_lt_length {p : List Char} (hp : p ≠ []) {s : List Char} {i : Nat}
    (h : occursAtB p s i = true) : i < s.length := by
  apply List.length_lt_of_drop_ne_nil
  intro hd
  rw [occursAtB, hd, isPre_nil_of_ne p hp] at h
  cases h

theorem occursAtB_add_le {p : List Char} (hp : p ≠ []) {s : List Char} {i : Nat}
    (h : occursAtB p s i = true) : i + p.length ≤ s.length := by
  have h1 := occursAtB_lt_length hp h
  have h2 := isPre_length_le h
  rw [List.length_drop] at h2
  omega

theorem occursAtB_drop (p s : List Char) (k i : Nat) :
    occursAtB p (s.drop k) i = occursAtB p s (k + i) := by
  unfold occursAtB
  rw [List.drop_drop]

/-! ## Lemmas: occurrence counting -/

theorem countOcc_pos_of_occurs {p : List Char} (hp : p ≠ []) :
    ∀ {s : List Char} {i : Nat}, occursAtB p s i = true → 1 ≤ countOcc p s := by
  intro s
  induction s with
  | nil => intro i h; rw [occursAtB_nil hp] at h; cases h
  | cons c t ih =>
    intro i h
    unfold countOcc
    cases i with
    | zero =>
      rw [occursAtB_zero] at h
      rw [if_pos h]
      omega
    | succ j =>
      rw [occursAtB_cons_succ] at h
      have := ih h
      omega

theorem countOcc_two_of_occurs {p : List Char} (hp : p ≠ []) :
    ∀ {s : List Char} {i j : Nat}, i < j →
      occursAtB p s i = true → occursAtB p s j = true → 2 ≤ countOcc p s := by
  intro s
  induction s with
  | nil => intro i j _ h _; rw [occursAtB_nil hp] at h; cases h
  | cons c t ih =>
    intro i j hij hi hj
    unfold countOcc
    cases i with
    | zero =>
      rw [occursAtB_zero] at hi
      rw [if_pos hi]
      cases j with
      | zero => omega
      | succ j' =>
        rw [occursAtB_cons_succ] at hj
        have := countOcc_pos_of_occurs hp hj
        omega
    | succ i' =>
      cases j with
      | zero => omega
      | succ j' =>
        rw [occursAtB_cons_succ] at hi hj
        have := ih (by omega : i' < j') hi hj
        omega

theorem countOcc_one_unique {p : List Char} (hp : p ≠ []) {s : List Char}
    (h1 : countOcc p s = 1) {i j : Nat}
    (hi : occursAtB p s i = true) (hj : occursAtB p s j = true) : i = j := by
  rcases Nat.lt_trichotomy i j with h | h | h
  · have := countOcc_two_of_occurs hp h hi hj; omega
  · exact h
  · have := countOcc_two_of_occurs hp h hj hi; omega

theorem countOcc_pos_ex {p : List Char} :
    ∀ {s : List Char}, 1 ≤ countOcc p s → ∃ i, occursAtB p s i = true := by
  intro s
  induction s with
  | nil => intro h; unfold countOcc at h; omega
  | cons c t ih =>
    intro h
    unfold countOcc at h
    by_cases hc : isPre p (c :: t) = true
    · exact ⟨0, by rw [occursAtB_zero]; exact hc⟩
    · rw [if_neg hc] at h
      obtain ⟨i, hi⟩ := ih (by omega)
      exact ⟨i + 1, by rw [occursAtB_cons_succ]; exact hi⟩

theorem countOcc_one_hasSub {p : List Char} (hp : p ≠ []) {s : List Char}
    (h : countOcc p s = 1) : hasSub p s = true := by
  have h1 : 1 ≤ countOcc p s := by omega
  obtain ⟨i, hi⟩ := countOcc_pos_ex h1
  exact occurs_hasSub hp hi

/-! ## Lemmas: the split scan -/

theorem findSub_some_pos_len {p : List Char} (hp : p ≠ []) {s : List Char} {i : Nat}
    (h : findSub p s = some i) : 1 ≤ i + p.length ∧ i + p.length ≤ s.length := by
  have ho := findSub_some_occurs h
  have h1 := occursAtB_add_le hp ho
  have h2 : 1 ≤ p.length := by
    cases p with
    | nil => exact absurd rfl hp
    | cons a q => simp
  omega

theorem pysplitF_congr {p : List Char} (hp : p ≠ []) :
    ∀ (f1 : Nat) {f2 : Nat} {s : List Char}, s.length ≤ f1 → s.length ≤ f2 →
      pysplitF p f1 s = pysplitF p f2 s := by
  intro f1
  induction f1 with
  | zero =>
    intro f2 s h1 h2
    have hs : s = [] := List.length_eq_zero.1 (by omega)
    subst hs
    cases f2 with
    | zero => rfl
    | succ f2' => simp [pysplitF, findSub_nil hp]
  | succ f1' ih =>
    intro f2 s h1 h2
    cases f2 with
    | zero =>
      have hs : s = [] := List.length_eq_zero.1 (by omega)
      subst hs
      simp [pysplitF, findSub_nil hp]
    | succ f2' =>
      unfold pysplitF
      cases hf : findSub p s with
      | none => rfl
      | some i =>
        have hlen := findSub_some_pos_len hp hf
        have hd : (s.drop (i + p.length)).length ≤ f1' := by
          rw [List.length_drop]; omega
        have hd2 : (s.drop (i + p.length)).length ≤ f2' := by
          rw [List.length_drop]; omega
        simp only [ih hd hd2]

theorem pysplit_of_none {p : List Char} (hp : p ≠ []) {s : List Char}
    (h : findSub p s = none) : pysplit p s = [s] := by
  unfold pysplit
  cases hl : s.length with
  | zero => rfl
  | succ n => simp [pysplitF, h]

theorem pysplit_of_some {p : List Char} (hp : p ≠ []) {s : List Char} {i : Nat}
    (h : findSub p s = some i) :
    pysplit p s = s.take i :: pysplit p (s.drop (i + p.length)) := by
  have hlen := findSub_some_pos_len hp h
  unfold pysplit
  cases hl : s.length with
  | zero =>
    exfalso
    have : s = [] := List.length_eq_zero.1 hl
    subst this
    rw [findSub_nil hp] at h
    cases h
  | succ n =>
    simp only [pysplitF, h]
    have hd : (s.drop (i + p.length)).length ≤ n := by
      rw [List.length_drop]; omega
    rw [pysplitF_congr hp n hd (le_refl _)]

theorem pysplitF_ne_nil (p : List Char) : ∀ (f : Nat) (s : List Char), pysplitF p f s ≠ [] := by
  intro f s
  cases f with
  | zero => simp [pysplitF]
  | succ f' =>
    unfold pysplitF
    cases findSub p s with
    | none => simp
    | some i => simp

theorem pysplit_ne_nil (p s : List Char) : pysplit p s ≠ [] :=
  pysplitF_ne_nil p s.length s

theorem scanOccsF_congr {p : List Char} (hp : p ≠ []) :
    ∀ (f1 : Nat) {f2 : Nat} {s : List Char}, s.length ≤ f1 → s.length ≤ f2 →
      scanOccsF p f1 s = scanOccsF p f2 s := by
  intro f1
  induction f1 with
  | zero =>
    intro f2 s h1 h2
    have hs : s = [] := List.length_eq_zero.1 (by omega)
    subst hs
    cases f2 with
    | zero => rfl
    | succ f2' => simp [scanOccsF, findSub_nil hp]
  | succ f1' ih =>
    intro f2 s h1 h2
    cases f2 with
    | zero =>
      have hs : s = [] := List.length_eq_zero.1 (by omega)
      subst hs
      simp [scanOccsF, findSub_nil hp]
    | succ f2' =>
      unfold scanOccsF
      cases hf : findSub p s with
      | none => rfl
      | some i =>
        have hlen := findSub_some_pos_len hp hf
        have hd : (s.drop (i + p.length)).length ≤ f1' := by
          rw [List.length_drop]; omega
        have hd2 : (s.drop (i + p.length)).length ≤ f2' := by
          rw [List.length_drop]; omega
        simp only [ih hd hd2]

theorem scanOccs_of_none {p : List Char} (hp : p ≠ []) {s : List Char}
    (h : findSub p s = none) : scanOccs p s = [] := by
  unfold scanOccs
  cases hl : s.length with
  | zero => rfl
  | succ n => simp [scanOccsF, h]

theorem scanOccs_of_some {p : List Char} (hp : p ≠ []) {s : List Char} {i : Nat}
    (h : findSub p s = some i) :
    scanOccs p s = i :: (scanOccs p (s.drop (i + p.length))).map (· + (i + p.length)) := by
  have hlen := findSub_some_pos_len hp h
  unfold scanOccs
  cases hl : s.length with
  | zero =>
    exfalso
    have : s = [] := List.length_eq_zero.1 hl
    subst this
    rw [findSub_nil hp] at h
    cases h
  | succ n =>
    simp only [scanOccsF, h]
    have hd : (s.drop (i + p.length)).length ≤ n := by
      rw [List.length_drop]; omega
    rw [scanOccsF_congr hp n hd (le_refl _)]

theorem scanOccs_nil_iff {p : List Char} (hp : p ≠ []) {s : List Char} :
    scanOccs p s = [] ↔ findSub p s = none := by
  constructor
  · intro h
    cases hf : findSub p s with
    | none => rfl
    | some i => rw [scanOccs_of_some hp hf] at h; cases h
  · exact scanOccs_of_none hp

/-! ## Lemmas: stripping -/

theorem dropWhile_head_not {q : Char → Bool} :
    ∀ {l : List Char} {c : Char}, (l.dropWhile q).head? = some c → q c = false := by
  intro l
  induction l with
  | nil => intro c h; cases h
  | cons a t ih =>
    intro c h
    rw [List.dropWhile_cons] at h
    by_cases ha : q a = true
    · rw [if_pos ha] at h; exact ih h
    · rw [if_neg ha] at h
      cases h
      simpa using ha

theorem dropWhile_eq_self_of_head {q : Char → Bool} {l : List Char}
    (h : ∀ c, l.head? = some c → q c = false) : l.dropWhile q = l := by
  cases l with
  | nil => rfl
  | cons a t =>
    rw [List.dropWhile_cons, if_neg]
    simp [h a rfl]

theorem dropWhile_idem (q : Char → Bool) (l : List Char) :
    (l.dropWhile q).dropWhile q = l.dropWhile q :=
  dropWhile_eq_self_of_head (fun _ h => dropWhile_head_not h)

theorem dropWhile_eq_append (q : Char → Bool) :
    ∀ l : List Char, ∃ t, l = t ++ l.dropWhile q := by
  intro l
  induction l with
  | nil => exact ⟨[], rfl⟩
  | cons a t ih =>
    rw [List.dropWhile_cons]
    by_cases ha : q a = true
    · rw [if_pos ha]
      obtain ⟨w, hw⟩ := ih
      exact ⟨a :: w, by rw [List.cons_append, ← hw]⟩
    · rw [if_neg ha]
      exact ⟨[], rfl⟩

theorem rstrip_reverse (u : List Char) :
    (rstrip u).reverse = u.reverse.dropWhile isPySpace := by
  simp [rstrip]

theorem rstrip_idem (u : List Char) : rstrip (rstrip u) = rstrip u := by
  unfold rstrip
  rw [List.reverse_reverse, dropWhile_idem]

theorem lstrip_idem (s : List Char) : lstrip (lstrip s) = lstrip s :=
  dropWhile_idem isPySpace s

theorem exists_append_rstrip (u : List Char) : ∃ t, u = rstrip u ++ t := by
  obtain ⟨w, hw⟩ := dropWhile_eq_append isPySpace u.reverse
  refine ⟨w.reverse, ?_⟩
  have := congrArg List.reverse hw
  simpa [rstrip] using this

theorem head?_append_left {a : List Char} (b : List Char) (h : a ≠ []) :
    (a ++ b).head? = a.head? := by
  cases a with
  | nil => exact absurd rfl h
  | cons x t => rfl

theorem lstrip_head_not {s : List Char} {c : Char}
    (h : (lstrip s).head? = some c) : isPySpace c = false :=
  dropWhile_head_not h

theorem lstrip_rstrip_lstrip (s : List Char) :
    lstrip (rstrip (lstrip s)) = rstrip (lstrip s) := by
  by_cases hu : rstrip (lstrip s) = []
  · rw [hu]; rfl
  · apply dropWhile_eq_self_of_head
    intro c hc
    apply lstrip_head_not (s := s)
    obtain ⟨t, ht⟩ := exists_append_rstrip (lstrip s)
    rw [ht, head?_append_left t hu]
    exact hc

theorem pystrip_idem (s : List Char) : pystrip (pystrip s) = pystrip s := by
  unfold pystrip
  rw [lstrip_rstrip_lstrip, rstrip_idem]

theorem exists_pystrip_decomp (s : List Char) : ∃ d w, s = d ++ pystrip s ++ w := by
  obtain ⟨d, hd⟩ := dropWhile_eq_append isPySpace s
  obtain ⟨w, hw⟩ := exists_append_rstrip (lstrip s)
  refine ⟨d, w, ?_⟩
  unfold pystrip
  rw [List.append_assoc, ← hw]
  exact hd

/-! ## Lemmas: lifting occurrences through containment -/

theorem drop_append_exact (d : List Char) :
    ∀ (z : List Char) (i : Nat), (d ++ z).drop (d.length + i) = z.drop i := by
  induction d with
  | nil => intro z i; simp
  | cons c d' ih =>
    intro z i
    have : (d'.length + 1) + i = (d'.length + i) + 1 := by omega
    rw [List.cons_append, List.length_cons, this, List.drop_succ_cons]
    exact ih z i

theorem drop_append_le {u : List Char} :
    ∀ (w : List Char) {i : Nat}, i ≤ u.length → (u ++ w).drop i = u.drop i ++ w := by
  induction u with
  | nil =>
    intro w i h
    have : i = 0 := by simpa using h
    subst this
    simp
  | cons c u' ih =>
    intro w i h
    cases i with
    | zero => simp
    | succ i' =>
      rw [List.cons_append, List.drop_succ_cons, List.drop_succ_cons]
      exact ih w (by simpa using h)

theorem hasSub_of_decomp {p : List Char} (hp : p ≠ []) {u : List Char}
    (d w : List Char) (h : hasSub p u = true) : hasSub p (d ++ u ++ w) = true := by
  unfold hasSub at h
  cases hf : findSub p u with
  | none => rw [hf] at h; cases h
  | some i =>
    have ho := findSub_some_occurs hf
    have hlt : i ≤ u.length := le_of_lt (occursAtB_lt_length hp ho)
    have : occursAtB p (d ++ u ++ w) (d.length + i) = true := by
      unfold occursAtB
      rw [List.append_assoc, drop_append_exact, drop_append_le w hlt]
      exact isPre_append_right w ho
    exact occurs_hasSub hp this

theorem hasSub_pystrip_le {p : List Char} (hp : p ≠ []) {s : List Char}
    (h : hasSub p (pystrip s) = true) : hasSub p s = true := by
  obtain ⟨d, w, hdw⟩ := exists_pystrip_decomp s
  rw [hdw]
  exact hasSub_of_decomp hp d w h

/-! ## Lemmas: characterizing `parse_faq_input` -/

theorem qTok_ne_nil : qTok ≠ [] := by decide

theorem aTok_ne_nil : aTok ≠ [] := by decide

theorem sep_token_ne_nil : sep_token ≠ [] := by decide

theorem findSub_of_hasSub {p l : List Char} (h : hasSub p l = true) :
    findSub p l = some ((findSub p l).getD 0) := by
  unfold hasSub at h
  cases hf : findSub p l with
  | none => rw [hf] at h; cases h
  | some i => rfl

theorem pysplit_headD_of_some {p : List Char} (hp : p ≠ []) {l : List Char} {i : Nat}
    (h : findSub p l = some i) : (pysplit p l).headD [] = l.take i := by
  rw [pysplit_of_some hp h]
  rfl

theorem pysplit_getD_one {p : List Char} (hp : p ≠ []) {l : List Char} {i : Nat}
    (h : findSub p l = some i) :
    (pysplit p l).getD 1 [] =
      (match findSub p (l.drop (i + p.length)) with
       | none => l.drop (i + p.length)
       | some j => (l.drop (i + p.length)).take j) := by
  rw [pysplit_of_some hp h, List.getD_cons_succ]
  cases hf : findSub p (l.drop (i + p.length)) with
  | none => rw [pysplit_of_none hp hf, List.getD_cons_zero]
  | some j => rw [pysplit_of_some hp hf, List.getD_cons_zero]

theorem parseLines_eq_filter_map (lines : List (List Char)) :
    parseLines lines = (lines.filter lineKeptB).map (fun l =>
      (pystrip (removeSub qTok ((pysplit aTok l).headD [])),
       pystrip ((pysplit aTok l).getD 1 []))) := by
  induction lines with
  | nil => rfl
  | cons l rest ih =>
    rw [parseLines, List.filter_cons]
    by_cases h : (hasSub qTok l && hasSub aTok l) = true
    · rw [if_pos h, if_pos (show lineKeptB l = true from h), List.map_cons, ih]
    · rw [if_neg h, if_neg (show ¬ lineKeptB l = true from h), ih]

theorem kept_extract {l : List Char} (h : hasSub aTok l = true) :
    (pystrip (removeSub qTok ((pysplit aTok l).headD [])),
     pystrip ((pysplit aTok l).getD 1 [])) = extract2 l := by
  have hf : findSub aTok l = some (aIdx l) := by
    have := findSub_of_hasSub h
    exact this
  have h2 : aTok.length = 2 := rfl
  simp only [extract2]
  rw [pysplit_headD_of_some aTok_ne_nil hf, pysplit_getD_one aTok_ne_nil hf, h2]

theorem parse_eq_filter_map (raw : List Char) :
    parse_faq_input raw = ((linesOf raw).filter lineKeptB).map extract2 := by
  unfold parse_faq_input
  rw [parseLines_eq_filter_map]
  apply List.map_congr_left
  intro l hl
  have hk := (List.mem_filter.1 hl).2
  have ha : hasSub aTok l = true := by
    unfold lineKeptB at hk
    rw [Bool.and_eq_true] at hk
    exact hk.2
  exact kept_extract ha

/-! ## Lemmas: well-formed lines -/

theorem wf_findSub_a {l : List Char} (h : wfLine l) : findSub aTok l = some (aIdx l) := by
  have hs := countOcc_one_hasSub aTok_ne_nil h.2.1
  unfold aIdx
  exact findSub_of_hasSub hs

theorem wf_findSub_q {l : List Char} (h : wfLine l) : findSub qTok l = some (qIdx l) := by
  have hs := countOcc_one_hasSub qTok_ne_nil h.1
  unfold qIdx
  exact findSub_of_hasSub hs

theorem wf_no_second {l : List Char} (h : wfLine l) :
    findSub aTok (l.drop (aIdx l + 2)) = none := by
  cases hf : findSub aTok (l.drop (aIdx l + 2)) with
  | none => rfl
  | some j =>
    exfalso
    have ho := findSub_some_occurs hf
    rw [occursAtB_drop] at ho
    have h0 := findSub_some_occurs (wf_findSub_a h)
    have heq := countOcc_one_unique aTok_ne_nil h.2.1 h0 ho
    omega

theorem wf_split {l : List Char} (h : wfLine l) :
    pysplit aTok l = [l.take (aIdx l), l.drop (aIdx l + 2)] := by
  have h2 : aTok.length = 2 := rfl
  rw [pysplit_of_some aTok_ne_nil (wf_findSub_a h), h2,
    pysplit_of_none aTok_ne_nil (wf_no_second h)]

theorem wf_kept {l : List Char} (h : wfLine l) :
    (hasSub qTok l && hasSub aTok l) = true := by
  rw [countOcc_one_hasSub qTok_ne_nil h.1, countOcc_one_hasSub aTok_ne_nil h.2.1]
  rfl

theorem wf_extract_eq {l : List Char} (h : wfLine l) :
    (pystrip (removeSub qTok ((pysplit aTok l).headD [])),
     pystrip ((pysplit aTok l).getD 1 [])) = wfExtract l := by
  rw [wf_split h]
  rfl

theorem parseLines_wf (lines : List (List Char)) (h : ∀ l ∈ lines, wfLine l) :
    parseLines lines = lines.map wfExtract := by
  induction lines with
  | nil => rfl
  | cons l rest ih =>
    have hl := h l (by simp)
    rw [parseLines, if_pos (wf_kept hl), wf_extract_eq hl, List.map_cons,
      ih (fun x hx => h x (by simp [hx]))]

theorem wf_answer_no_a {l : List Char} (h : wfLine l) :
    hasSub aTok (pystrip (l.drop (aIdx l + 2))) = false := by
  cases hc : hasSub aTok (pystrip (l.drop (aIdx l + 2))) with
  | false => rfl
  | true =>
    exfalso
    have h1 := hasSub_pystrip_le aTok_ne_nil hc
    unfold hasSub at h1
    rw [wf_no_second h] at h1
    cases h1

theorem wf_answer_no_q {l : List Char} (h : wfLine l) :
    hasSub qTok (pystrip (l.drop (aIdx l + 2))) = false := by
  cases hc : hasSub qTok (pystrip (l.drop (aIdx l + 2))) with
  | false => rfl
  | true =>
    exfalso
    have h1 := hasSub_pystrip_le qTok_ne_nil hc
    unfold hasSub at h1
    cases hf : findSub qTok (l.drop (aIdx l + 2)) with
    | none => rw [hf] at h1; cases h1
    | some j =>
      have ho := findSub_some_occurs hf
      rw [occursAtB_drop] at ho
      have h0 := findSub_some_occurs (wf_findSub_q h)
      have heq := countOcc_one_unique qTok_ne_nil h.1 h0 ho
      have hlt := h.2.2
      omega

/-! ## Lemmas: the last segment of the split -/

theorem getLastD_of_ne_nil {α : Type} :
    ∀ {l : List α}, l ≠ [] → ∀ d1 d2 : α, l.getLastD d1 = l.getLastD d2 := by
  intro l
  cases l with
  | nil => intro h; exact absurd rfl h
  | cons a t =>
    intro _ d1 d2
    rw [List.getLastD_cons, List.getLastD_cons]

theorem scan_last_aux {p : List Char} (hp : p ≠ []) :
    ∀ (n : Nat) (s : List Char), s.length ≤ n → ∀ last,
      (scanOccs p s).getLast? = some last →
      (pysplit p s).getLastD [] = s.drop (last + p.length) := by
  intro n
  induction n with
  | zero =>
    intro s hlen last hlast
    have hs : s = [] := List.length_eq_zero.1 (by omega)
    subst hs
    rw [scanOccs_of_none hp (findSub_nil hp)] at hlast
    cases hlast
  | succ n ih =>
    intro s hlen last hlast
    cases hf : findSub p s with
    | none =>
      rw [scanOccs_of_none hp hf] at hlast
      cases hlast
    | some i =>
      have hpl := findSub_some_pos_len hp hf
      rw [scanOccs_of_some hp hf] at hlast
      rw [pysplit_of_some hp hf]
      cases hr : scanOccs p (s.drop (i + p.length)) with
      | nil =>
        rw [hr, List.map_nil, List.getLast?_singleton] at hlast
        injection hlast with hlast
        subst hlast
        have hnone : findSub p (s.drop (i + p.length)) = none := (scanOccs_nil_iff hp).1 hr
        rw [pysplit_of_none hp hnone, List.getLastD_cons, List.getLastD_cons,
          List.getLastD_nil]
      | cons j js =>
        rw [hr, List.map_cons, List.getLast?_cons_cons] at hlast
        have hlast2 :
            (List.map (fun x => x + (i + p.length)) (j :: js)).getLast? = some last := hlast
        rw [List.getLast?_map] at hlast2
        cases hlr : (j :: js).getLast? with
        | none => exact absurd (List.getLast?_eq_none_iff.1 hlr) (by simp)
        | some lr =>
          rw [hlr, Option.map_some'] at hlast2
          injection hlast2 with hlast2
          have hrest : (s.drop (i + p.length)).length ≤ n := by
            rw [List.length_drop]; omega
          have hscan : (scanOccs p (s.drop (i + p.length))).getLast? = some lr := by
            rw [hr]; exact hlr
          have hih := ih (s.drop (i + p.length)) hrest lr hscan
          rw [List.getLastD_cons,
            getLastD_of_ne_nil (pysplit_ne_nil p _) (s.take i) [], hih,
            List.drop_drop]
          have harith : i + p.length + (lr + p.length) = last + p.length := by omega
          rw [harith]

theorem scan_last {p : List Char} (hp : p ≠ []) {s : List Char} {last : Nat}
    (h : (scanOccs p s).getLast? = some last) :
    (pysplit p s).getLastD [] = s.drop (last + p.length) :=
  scan_last_aux hp s.length s (le_refl _) last h

/-! ## Claim C1 -/

/-- C1 (corrected): for raw input all of whose lines are well-formed
(exactly one `Q:` followed by exactly one `A:`), `parse_faq_input` returns
one pair per line, in line order, each question and answer trimmed of
surrounding whitespace and each answer free of both markers; the spec's
example parses exactly as stated. The original claim's "the question
contains no `Q:` marker" is dropped: deleting the `Q:` occurrences can
splice a fresh `Q:` (or `A:`) out of adjacent characters (see the
counterexample). -/
theorem c1_parse_wf_lines :
    (∀ raw : List Char, (∀ l ∈ linesOf raw, wfLine l) →
      parse_faq_input raw = (linesOf raw).map wfExtract ∧
      ∀ qa ∈ parse_faq_input raw,
        pystrip qa.1 = qa.1 ∧ pystrip qa.2 = qa.2 ∧
        hasSub qTok qa.2 = false ∧ hasSub aTok qa.2 = false) ∧
    parse_faq_input
        ("Q: What are your hours? A: 9 to 5\nrandom line\nQ: Open Sundays? A: No".data) =
      [("What are your hours?".data, "9 to 5".data),
       ("Open Sundays?".data, "No".data)] := by
  constructor
  · intro raw hwf
    have hmap : parse_faq_input raw = (linesOf raw).map wfExtract :=
      parseLines_wf (linesOf raw) hwf
    refine ⟨hmap, ?_⟩
    intro qa hqa
    rw [hmap] at hqa
    obtain ⟨l, hl, rfl⟩ := List.mem_map.1 hqa
    have hwl := hwf l hl
    simp only [wfExtract]
    exact ⟨pystrip_idem _, pystrip_idem _, wf_answer_no_q hwl, wf_answer_no_a hwl⟩
  · decide

/-- Witness for C1 at a concrete two-line well-formed input. -/
theorem c1_parse_wf_lines_witness :
    parse_faq_input ("Q: a A: b\nQ: c A: d".data) =
        (linesOf ("Q: a A: b\nQ: c A: d".data)).map wfExtract ∧
    ∀ qa ∈ parse_faq_input ("Q: a A: b\nQ: c A: d".data),
      pystrip qa.1 = qa.1 ∧ pystrip qa.2 = qa.2 ∧
      hasSub qTok qa.2 = false ∧ hasSub aTok qa.2 = false :=
  c1_parse_wf_lines.1 ("Q: a A: b\nQ: c A: d".data) (by decide)

/-- C1 counterexample: the single line `"QQ:: hi A: x"` contains exactly
one `Q:` (at index 1) followed by exactly one `A:`, yet the parsed
question is `"Q: hi"`, which still contains the `Q:` marker, refuting the
claim that questions are free of it. -/
theorem c1_counterexample :
    (∀ l ∈ linesOf ("QQ:: hi A: x".data), wfLine l) ∧
    parse_faq_input ("QQ:: hi A: x".data) = [("Q: hi".data, "x".data)] ∧
    hasSub qTok ("Q: hi".data) = true := by
  decide

/-! ## Claim C6 -/

/-- C6 counterexample: `parse_faq_input "Q: A:"` returns the single pair
`("", "")` with empty question and empty answer — the candidate line is
not dropped, refuting the claimed non-emptiness invariant. -/
theorem c6_counterexample :
    parse_faq_input ("Q: A:".data) = [(([] : List Char), ([] : List Char))] ∧
    ¬ (∀ qa ∈ parse_faq_input ("Q: A:".data), qa.1 ≠ [] ∧ qa.2 ≠ []) := by
  decide

/-- C6 (corrected): `parse_faq_input` performs no emptiness filtering: it
returns exactly one pair for every line containing both markers, even when
the trimmed question or answer part is empty. -/
theorem c6_parse_keeps_empty (raw : List Char) :
    (parse_faq_input raw).length = ((linesOf raw).filter lineKeptB).length := by
  rw [parse_eq_filter_map, List.length_map]

/-! ## Claim C7 -/

/-- C7 (corrected): a line is considered only when it contains both
literal markers (`parse_faq_input "no markers here" = []`), and every kept
line yields `extract2`: the question is the text before the first `A:`
with all `Q:` occurrences deleted, trimmed; the answer is the text
strictly between the first `A:` and the next `A:` occurrence when one
exists — NOT everything after the first `A:` — otherwise the remainder
after the first `A:`, trimmed. -/
theorem c7_parse_line_rule :
    parse_faq_input ("no markers here".data) = [] ∧
    ∀ raw : List Char,
      parse_faq_input raw = ((linesOf raw).filter lineKeptB).map extract2 :=
  ⟨by decide, parse_eq_filter_map⟩

/-- C7 counterexample: on a line with a second `A:`, the code's answer
stops at it: the claim predicts `("q", "a1 A: a2")`, the code yields
`("q", "a1")`. -/
theorem c7_counterexample :
    parse_faq_input ("Q: q A: a1 A: a2".data) = [("q".data, "a1".data)] ∧
    ("a1".data : List Char) ≠ "a1 A: a2".data := by
  decide

/-! ## Claim C2 -/

/-- C2 (confirmed): with an unknown industry `prepare_training_data`
returns exactly one example per custom pair in caller order; with a known
industry it returns the custom examples followed by one example per
catalog pair in the catalog's own order, `count(custom) + count(catalog)`
in total; every example text is `question ++ " " ++ "###" ++ " " ++ answer`. -/
theorem c2_prepare_training_data
    (business_data custom_faqs : List (List Char × List Char)) (industry : List Char) :
    (dictLookup industry SAMPLE_INDUSTRIES = none →
      prepare_training_data business_data custom_faqs industry =
        custom_faqs.map (fun qa => qa.1 ++ " ".data ++ ("###".data) ++ " ".data ++ qa.2)) ∧
    (∀ catalog, dictLookup industry SAMPLE_INDUSTRIES = some catalog →
      prepare_training_data business_data custom_faqs industry =
        custom_faqs.map (fun qa => qa.1 ++ " ".data ++ ("###".data) ++ " ".data ++ qa.2) ++
          catalog.map (fun qa => qa.1 ++ " ".data ++ ("###".data) ++ " ".data ++ qa.2) ∧
      (prepare_training_data business_data custom_faqs industry).length =
        custom_faqs.length + catalog.length) := by
  constructor
  · intro h
    unfold prepare_training_data
    rw [h]
    simp [sep_token, List.append_assoc]
  · intro catalog h
    unfold prepare_training_data
    rw [h]
    constructor
    · simp [sep_token, List.append_assoc]
    · simp

/-- Witness for C2: unknown industry keeps just the custom pair; the
`"retail"` industry appends its two catalog pairs. -/
theorem c2_prepare_training_data_witness :
    (prepare_training_data [] [("q".data, "a".data)] ("unknown".data) =
      [(("q".data : List Char), ("a".data : List Char))].map
        (fun qa => qa.1 ++ " ".data ++ ("###".data) ++ " ".data ++ qa.2)) ∧
    (prepare_training_data [] [("q".data, "a".data)] ("retail".data)).length = 1 + 2 :=
  ⟨(c2_prepare_training_data [] [("q".data, "a".data)] ("unknown".data)).1 (by decide),
   ((c2_prepare_training_data [] [("q".data, "a".data)] ("retail".data)).2
      [("What are your store hours?".data,
        "Our store is open Monday through Saturday from 9 AM to 6 PM.".data),
       ("Do you offer returns?".data,
        "Yes, we offer returns within 30 days of purchase with original receipt.".data)]
      (by decide)).2⟩

/-! ## Claim C10 -/

/-- C10 (confirmed): the examples produced by `prepare_training_data` do
not depend on the business profile argument — the source method never
reads it. -/
theorem c10_business_data_independent
    (b1 b2 custom_faqs : List (List Char × List Char)) (industry : List Char) :
    prepare_training_data b1 custom_faqs industry =
      prepare_training_data b2 custom_faqs industry := rfl

/-! ## Claim C3 -/

/-- C3 (corrected): when the decoded delegate output contains the
separator, `clean_response` keeps the text after the last separator
occurrence consumed by the left-to-right split scan, trimmed; when the
separator never appears, the whole decoded text is returned TRIMMED of
surrounding whitespace — not unmodified as claimed. -/
theorem c3_generate_cleanup :
    (∀ s : List Char, hasSub sep_token s = false → clean_response s = pystrip s) ∧
    (∀ (s : List Char) (last : Nat), (scanOccs sep_token s).getLast? = some last →
      clean_response s = pystrip (s.drop (last + 3))) := by
  constructor
  · intro s h
    unfold clean_response
    unfold hasSub at h
    cases hf : findSub sep_token s with
    | none => rw [pysplit_of_none sep_token_ne_nil hf]; rfl
    | some i => rw [hf] at h; cases h
  · intro s last h
    unfold clean_response
    rw [scan_last sep_token_ne_nil h]
    rfl

/-- Witness for C3: a separator-free output is trimmed whole; an output
whose single scan occurrence starts at index 2 keeps the text after it. -/
theorem c3_generate_cleanup_witness :
    clean_response ("no sep here".data) = pystrip ("no sep here".data) ∧
    clean_response ("q ### a".data) = pystrip (("q ### a".data).drop (2 + 3)) :=
  ⟨c3_generate_cleanup.1 ("no sep here".data) (by decide),
   c3_generate_cleanup.2 ("q ### a".data) 2 (by decide)⟩

/-- C3 counterexample: `"  hi  "` contains no separator yet is returned
trimmed (`"hi"`), not unmodified; and on `"a####b"` (separator occurrences
at indices 1 and 2) the result `"#b"` is not the trimmed substring after
the last occurrence (`"b"`). -/
theorem c3_counterexample :
    (hasSub sep_token ("  hi  ".data) = false ∧
     clean_response ("  hi  ".data) ≠ "  hi  ".data) ∧
    (occursAtB sep_token ("a####b".data) 2 = true ∧
     (∀ j, j < ("a####b".data).length → 2 < j →
        occursAtB sep_token ("a####b".data) j = false) ∧
     clean_response ("a####b".data) ≠ pystrip (("a####b".data).drop (2 + 3))) := by
  decide

/-! ## Claim C4 -/

/-- C4 (confirmed): `chat` with an empty checkpoint path returns the
non-empty "train first" guidance message with the history and state
unchanged, whatever the question (so this branch also wins when both are
empty, the path check being first); with a non-empty path and an empty
question it returns the non-empty "ask a question" message with the
history and state unchanged. -/
theorem c4_chat_guards (load : List Char → Except (List Char) Unit)
    (gen : List Char → Except (List Char) (List Char))
    (st : InterfaceState) (question : List Char)
    (history : List (List Char × List Char)) :
    (chat load gen st question [] history =
        (("Please train the chatbot first!".data, history), st) ∧
      ("Please train the chatbot first!".data : List Char) ≠ []) ∧
    (∀ model_path, model_path ≠ [] →
      chat load gen st [] model_path history =
          (("Please ask a question!".data, history), st) ∧
        ("Please ask a question!".data : List Char) ≠ []) := by
  refine ⟨⟨?_, by decide⟩, ?_⟩
  · unfold chat
    rw [if_pos rfl]
  · intro mp hmp
    refine ⟨?_, by decide⟩
    unfold chat
    rw [if_neg hmp, if_pos rfl]

/-- Witness for C4 with a concrete non-empty checkpoint path. -/
theorem c4_chat_guards_witness :
    chat (fun _ => Except.ok ()) (fun _ => Except.ok []) ⟨none, []⟩ [] ("m".data) [] =
      (("Please ask a question!".data, []), (⟨none, []⟩ : InterfaceState)) :=
  (((c4_chat_guards (fun _ => Except.ok ()) (fun _ => Except.ok []) ⟨none, []⟩ [] []).2
      ("m".data) (by decide)).1)

/-! ## Claim C5 -/

/-- C5 (confirmed): a successful `chat` with non-empty question and
checkpoint path returns the generated response, returns the history with
exactly the one new `(question, response)` turn appended at the end,
leaves the session loaded against the given path, and invokes the load
delegate exactly when that path differs from the previously loaded one
(or nothing was loaded yet). -/
theorem c5_chat_success (g : List Char → List Char) (st : InterfaceState)
    (question model_path : List Char) (history : List (List Char × List Char))
    (hq : question ≠ []) (hm : model_path ≠ []) :
    (chat (fun _ => Except.ok ()) (fun s => Except.ok (g s))
        st question model_path history).1.1 = generate_response g question ∧
    (chat (fun _ => Except.ok ()) (fun s => Except.ok (g s))
        st question model_path history).1.2 =
      history ++ [(question, generate_response g question)] ∧
    (chat (fun _ => Except.ok ()) (fun s => Except.ok (g s))
        st question model_path history).2.loaded_model_path = some model_path ∧
    (chat (fun _ => Except.ok ()) (fun s => Except.ok (g s))
        st question model_path history).2.loadLog =
      st.loadLog ++
        (if st.loaded_model_path = some model_path then [] else [model_path]) := by
  unfold chat chatAfterLoad
  rw [if_neg hm, if_neg hq]
  by_cases h : st.loaded_model_path = some model_path
  · rw [if_pos h, if_pos h]
    exact ⟨rfl, rfl, h.symm ▸ rfl, by simp⟩
  · rw [if_neg h, if_neg h]
    exact ⟨rfl, rfl, rfl, rfl⟩

/-- Witness for C5: first chat on a fresh session loads the model once and
appends the single turn. -/
theorem c5_chat_success_witness :
    (chat (fun _ => Except.ok ()) (fun s => Except.ok (id s))
        (⟨none, []⟩ : InterfaceState) ("q".data) ("m".data) []).1.2 =
      [] ++ [(("q".data : List Char), generate_response id ("q".data))] :=
  (c5_chat_success id ⟨none, []⟩ ("q".data) ("m".data) [] (by decide) (by decide)).2.1

/-! ## Claim C9 -/

/-- C9 (confirmed): an error raised by a completion-model delegate is not
retried and surfaces as `"Error: " ++ message`: `chat` returns it with the
history unchanged (no turn is appended) whether the load or the decode
step fails, and `train_chatbot` returns it as its status whether the
tokenization or the training step fails; the function returns normally in
every case, so only the current request is aborted. -/
theorem c9_delegate_errors :
    (∀ load gen st (question model_path : List Char) history (e : List Char),
      model_path ≠ [] → question ≠ [] → st.loaded_model_path ≠ some model_path →
      load model_path = Except.error e →
      chat load gen st question model_path history =
        (("Error: ".data ++ e, history), st)) ∧
    (∀ load gen st (question model_path : List Char) history (e : List Char),
      model_path ≠ [] → question ≠ [] → load model_path = Except.ok () →
      gen (question ++ (" ###".data)) = Except.error e →
      (chat load gen st question model_path history).1 =
        ("Error: ".data ++ e, history)) ∧
    (∀ c fs tokenize train (business_name industry faq_text e : List Char),
      tokenize (prepare_training_data
          [("name".data, business_name), ("industry".data, industry)]
          (parse_faq_input faq_text) industry) = Except.error e →
      (train_chatbot c fs tokenize train business_name industry faq_text).1 =
        ("Error: ".data ++ e, [])) ∧
    (∀ c fs tokenize train (business_name industry faq_text e : List Char) tokenized,
      tokenize (prepare_training_data
          [("name".data, business_name), ("industry".data, industry)]
          (parse_faq_input faq_text) industry) = Except.ok tokenized →
      train tokenized = Except.error e →
      (train_chatbot c fs tokenize train business_name industry faq_text).1 =
        ("Error: ".data ++ e, [])) := by
  refine ⟨?_, ?_, ?_, ?_⟩
  · intro load gen st q mp hist e hm hq hl he
    unfold chat
    rw [if_neg hm, if_neg hq, if_neg hl, he]
  · intro load gen st q mp hist e hm hq hl he
    unfold chat chatAfterLoad
    rw [if_neg hm, if_neg hq]
    by_cases h : st.loaded_model_path = some mp
    · rw [if_pos h, he]
    · rw [if_neg h, hl, he]
  · intro c fs tokenize train bn ind ft e he
    unfold train_chatbot
    simp only [he]
  · intro c fs tokenize train bn ind ft e tokenized hok he
    unfold train_chatbot
    simp only [hok, he]

/-- Witness for C9: failing load, failing decode, failing tokenization and
failing training at concrete inputs. -/
theorem c9_delegate_errors_witness :
    chat (fun _ => Except.error ("boom".data)) (fun _ => Except.ok [])
        (⟨none, []⟩ : InterfaceState) ("q".data) ("m".data) [] =
      (("Error: ".data ++ "boom".data, []), (⟨none, []⟩ : InterfaceState)) ∧
    (chat (fun _ => Except.ok ()) (fun _ => Except.error ("oom".data))
        (⟨none, []⟩ : InterfaceState) ("q".data) ("m".data) []).1 =
      ("Error: ".data ++ "oom".data, []) ∧
    (train_chatbot ⟨"R".data⟩ (fun _ => none)
        (fun _ => Except.error ("tok".data)) (fun _ => Except.ok ([], []))
        ("b".data) ("unknown".data) []).1 =
      ("Error: ".data ++ "tok".data, []) ∧
    (train_chatbot ⟨"R".data⟩ (fun _ => none)
        (fun _ => Except.ok []) (fun _ => Except.error ("oom2".data))
        ("b".data) ("unknown".data) []).1 =
      ("Error: ".data ++ "oom2".data, []) :=
  ⟨c9_delegate_errors.1 (fun _ => Except.error ("boom".data)) (fun _ => Except.ok [])
      ⟨none, []⟩ ("q".data) ("m".data) [] ("boom".data)
      (by decide) (by decide) (by simp) rfl,
   c9_delegate_errors.2.1 (fun _ => Except.ok ()) (fun _ => Except.error ("oom".data))
      ⟨none, []⟩ ("q".data) ("m".data) [] ("oom".data)
      (by decide) (by decide) rfl rfl,
   c9_delegate_errors.2.2.1 ⟨"R".data⟩ (fun _ => none)
      (fun _ => Except.error ("tok".data)) (fun _ => Except.ok ([], []))
      ("b".data) ("unknown".data) [] ("tok".data) rfl,
   c9_delegate_errors.2.2.2 ⟨"R".data⟩ (fun _ => none)
      (fun _ => Except.ok []) (fun _ => Except.error ("oom2".data))
      ("b".data) ("unknown".data) [] ("oom2".data) [] rfl rfl⟩

/-! ## Claim C8 -/

theorem decode_business_roundtrip (b : List (List Char × List Char)) :
    mapMOpt (fun kv => (decodeStr kv.2).map (fun v => (kv.1, v)))
        (b.map (fun kv => (kv.1, PyJson.str kv.2))) = some b := by
  induction b with
  | nil => rfl
  | cons kv t ih =>
    rw [List.map_cons, mapMOpt, ih]
    rfl

theorem decode_qa_roundtrip (qas : List (List Char × List Char)) :
    mapMOpt decodeQaPair
        (qas.map (fun qa => PyJson.obj
          [("question".data, PyJson.str qa.1), ("answer".data, PyJson.str qa.2)])) =
      some qas := by
  induction qas with
  | nil => rfl
  | cons qa t ih =>
    have h1 : decodeQaPair (PyJson.obj
        [("question".data, PyJson.str qa.1), ("answer".data, PyJson.str qa.2)]) =
        some (qa.1, qa.2) := by
      show (if ("question".data : List Char) = "question".data ∧
          ("answer".data : List Char) = "answer".data
        then some (qa.1, qa.2) else none) = some (qa.1, qa.2)
      rw [if_pos ⟨rfl, rfl⟩]
    rw [List.map_cons, mapMOpt, h1, ih]

theorem export_out_eq (c : Config) (fs : List Char → Option PyJson)
    (b qas : List (List Char × List Char)) (out : Option (List Char)) :
    (export_chatbot_data c fs b qas out).1 =
      out.getD (DATA_DIR c ++ ("/chatbot_export.json".data)) := by
  cases out <;> rfl

theorem export_fs_eq (c : Config) (fs : List Char → Option PyJson)
    (b qas : List (List Char × List Char)) (out : Option (List Char))
    (q : List Char) :
    (export_chatbot_data c fs b qas out).2 q =
      (if q = (export_chatbot_data c fs b qas out).1
       then some (export_payload b qas) else fs q) := by
  cases out <;> rfl

/-- C8 (confirmed): `export_chatbot_data` writes at its destination a JSON
document with exactly the two top-level fields `business_info` and
`qa_pairs`; decoding them back yields exactly the input profile and the
input pairs in order (round trip); what the document holds does not depend
on what the file previously held (plain overwrite), the rest of the file
system is untouched, and with no destination supplied the fixed default
path `DATA_DIR / "chatbot_export.json"` is used and returned. -/
theorem c8_export_roundtrip (c : Config) (fs : List Char → Option PyJson)
    (business_data qa_pairs : List (List Char × List Char))
    (output_file : Option (List Char)) :
    ((export_chatbot_data c fs business_data qa_pairs output_file).2
        (export_chatbot_data c fs business_data qa_pairs output_file).1 =
      some (export_payload business_data qa_pairs)) ∧
    (∃ bi qp, export_payload business_data qa_pairs =
      PyJson.obj [("business_info".data, bi), ("qa_pairs".data, qp)]) ∧
    ((getField ("business_info".data) (export_payload business_data qa_pairs)).bind
        decodeBusinessInfo = some business_data) ∧
    ((getField ("qa_pairs".data) (export_payload business_data qa_pairs)).bind
        decodeQaPairs = some qa_pairs) ∧
    (output_file = none →
      (export_chatbot_data c fs business_data qa_pairs output_file).1 =
        DATA_DIR c ++ ("/chatbot_export.json".data)) ∧
    (∀ q, q ≠ (export_chatbot_data c fs business_data qa_pairs output_file).1 →
      (export_chatbot_data c fs business_data qa_pairs output_file).2 q = fs q) := by
  refine ⟨?_, ⟨_, _, rfl⟩, ?_, ?_, ?_, ?_⟩
  · rw [export_fs_eq, if_pos rfl]
  · show Option.bind (dictLookup ("business_info".data)
      [("business_info".data, PyJson.obj (business_data.map (fun kv => (kv.1, PyJson.str kv.2)))),
       ("qa_pairs".data, PyJson.arr (qa_pairs.map (fun qa =>
         PyJson.obj [("question".data, PyJson.str qa.1), ("answer".data, PyJson.str qa.2)])))])
      decodeBusinessInfo = some business_data
    unfold dictLookup
    rw [if_pos rfl]
    exact decode_business_roundtrip business_data
  · show Option.bind (dictLookup ("qa_pairs".data)
      [("business_info".data, PyJson.obj (business_data.map (fun kv => (kv.1, PyJson.str kv.2)))),
       ("qa_pairs".data, PyJson.arr (qa_pairs.map (fun qa =>
         PyJson.obj [("question".data, PyJson.str qa.1), ("answer".data, PyJson.str qa.2)])))])
      decodeQaPairs = some qa_pairs
    unfold dictLookup
    rw [if_neg (by decide)]
    unfold dictLookup
    rw [if_pos rfl]
    exact decode_qa_roundtrip qa_pairs
  · intro h
    subst h
    rw [export_out_eq]
    rfl
  · intro q hq
    rw [export_fs_eq, if_neg hq]

/-- Witness for C8 at a concrete profile, pair list and absent destination. -/
theorem c8_export_roundtrip_witness :
    (export_chatbot_data ⟨"R".data⟩ (fun _ => none)
        [("name".data, "n".data)] [("q".data, "a".data)] none).1 =
      DATA_DIR ⟨"R".data⟩ ++ ("/chatbot_export.json".data) :=
  (c8_export_roundtrip ⟨"R".data⟩ (fun _ => none)
      [("name".data, "n".data)] [("q".data, "a".data)] none).2.2.2.2.1 rfl

end CB
